import Mathlib

/-!
Verification of the embedding-based similarity search and recommendation
engine (`VectorService`): the store's data model, `cosineSimilarity`,
`averageEmbeddings`, `searchSimilarCompanies`, `getCompanyRecommendations`
and `searchByCompanyName`, shallowly embedded over real-number vectors
(JavaScript floating-point numbers are idealised as reals).

Modelling conventions, each noted at the definition it concerns:
* the external embedding generator (`generateEmbedding`) and the document
  store are collaborators: operations take the query embedding and the
  store contents (a list of records, in the store's natural order) as
  arguments;
* a thrown JavaScript error is an `Except.error`;
* Mongo's `$regex ... $options: 'i'` match is embedded for the pattern
  language the claims exercise: a literal character matches
  case-insensitively and the metacharacter matches any character.
-/

/-- The `metadata` sub-document of the embedding schema: industry, website,
free-form tags; opaque to the engine. -/
structure Metadata where
  industry : Option String
  website : Option String
  tags : List String
deriving DecidableEq

/-- A stored `CompanyEmbedding` document: companyName, researchData, the
embedding vector, the owning user and metadata, plus the identity and
creation timestamp Mongo adds (`timestamps: true`). -/
structure StoredRecord where
  id : ℕ
  companyName : String
  researchData : String
  embedding : List ℝ
  userId : ℕ
  metadata : Metadata
  createdAt : ℕ

/-- A record as returned by queries that use `.select('-embedding')`: every
field of the stored document except the raw vector. -/
structure PublicRecord where
  id : ℕ
  companyName : String
  researchData : String
  userId : ℕ
  metadata : Metadata
  createdAt : ℕ
deriving DecidableEq

/-- The `-embedding` projection applied to a stored document. -/
def stripVector (r : StoredRecord) : PublicRecord :=
  { id := r.id, companyName := r.companyName, researchData := r.researchData,
    userId := r.userId, metadata := r.metadata, createdAt := r.createdAt }

/-- The spread `{...doc, similarityScore}` built by the search and
recommendation pipelines: the whole fetched document together with its
similarity score. -/
structure ScoredDoc where
  doc : StoredRecord
  similarityScore : ℝ

/-- The Euclidean norm computed by `cosineSimilarity`'s loop:
`Math.sqrt` of the sum of squares. -/
noncomputable def norm2 (v : List ℝ) : ℝ :=
  Real.sqrt ((v.map fun x => x * x).sum)

/-- `cosineSimilarity(vectorA, vectorB)` (source lines 48-71): throws when
the lengths differ; returns `0` when either norm is zero; otherwise the dot
product divided by the product of the norms.  The accumulation loop over
`i < vectorA.length` is rendered as sums over the zipped lists, which agree
with it because the guard has already forced equal lengths. -/
noncomputable def cosineSimilarity (vectorA vectorB : List ℝ) : Except String ℝ :=
  if vectorA.length ≠ vectorB.length then
    Except.error "Vectors must have the same length"
  else
    let dotProduct := ((vectorA.zip vectorB).map fun p => p.1 * p.2).sum
    let normA := norm2 vectorA
    let normB := norm2 vectorB
    if normA = 0 ∨ normB = 0 then Except.ok 0
    else Except.ok (dotProduct / (normA * normB))

/-- `averageEmbeddings(embeddings)` (source lines 191-208): `[]` on an empty
input, otherwise the vector indexed by the first embedding's dimension whose
`i`-th entry is the sum of the `i`-th entries divided by the count.  The two
index loops are rendered as a sum per index; an out-of-range read (JavaScript
`undefined`, poisoning the sum) is rendered as the default `0`, which no
claim exercises since all vectors compared together share one dimension. -/
noncomputable def averageEmbeddings : List (List ℝ) → List ℝ
  | [] => []
  | e0 :: rest =>
    (List.range e0.length).map fun i =>
      (((e0 :: rest).map fun e => e.getD i 0).sum) / ((e0 :: rest).length : ℝ)

/-- `Array.prototype.map` over a callback that may throw: the first thrown
error aborts the whole traversal, otherwise the list of results. -/
def mapExcept {α β ε : Type} (f : α → Except ε β) : List α → Except ε (List β)
  | [] => Except.ok []
  | x :: xs =>
    match f x with
    | Except.error e => Except.error e
    | Except.ok y =>
      match mapExcept f xs with
      | Except.error e => Except.error e
      | Except.ok ys => Except.ok (y :: ys)

/-- The comparator `(a, b) => b.similarityScore - a.similarityScore`:
descending similarity order. -/
def scoreDesc (a b : ScoredDoc) : Prop :=
  b.similarityScore ≤ a.similarityScore

noncomputable instance : DecidableRel scoreDesc :=
  fun a b => Real.decidableLE b.similarityScore a.similarityScore

instance : IsTotal ScoredDoc scoreDesc :=
  ⟨fun a b => le_total b.similarityScore a.similarityScore⟩

instance : IsTrans ScoredDoc scoreDesc :=
  ⟨fun _ _ _ h1 h2 => le_trans h2 h1⟩

/-- Mongo's `.sort({ createdAt: -1 })`: most recent first. -/
def recentFirst (a b : StoredRecord) : Prop :=
  b.createdAt ≤ a.createdAt

instance : DecidableRel recentFirst :=
  fun a b => Nat.decLe b.createdAt a.createdAt

instance : IsTotal StoredRecord recentFirst :=
  ⟨fun a b => le_total b.createdAt a.createdAt⟩

instance : IsTrans StoredRecord recentFirst :=
  ⟨fun _ _ _ h1 h2 => le_trans h2 h1⟩

/-- The candidate scan of `searchSimilarCompanies` (source lines 111-118):
`find(query).limit(1000)` where the query excludes one user when
`excludeUserId` is supplied; the store's natural order is the list order. -/
def searchCandidates (store : List StoredRecord) (excludeUserId : Option ℕ) :
    List StoredRecord :=
  ((match excludeUserId with
    | some uid => store.filter fun r => decide (r.userId ≠ uid)
    | none => store : List StoredRecord)).take 1000

/-- The caller's history fetched by `getCompanyRecommendations` (source lines
148-153): `find({userId}).sort({createdAt: -1}).limit(10)`. -/
def userRecords (store : List StoredRecord) (userId : ℕ) : List StoredRecord :=
  ((store.filter fun r => decide (r.userId = userId)).insertionSort recentFirst).take 10

/-- The candidate scan of `getCompanyRecommendations` (source lines 161-166):
`find({userId: {$ne}}).limit(500)`. -/
def otherCandidates (store : List StoredRecord) (userId : ℕ) : List StoredRecord :=
  (store.filter fun r => decide (r.userId ≠ userId)).take 500

/-- Scoring one fetched document against a query vector: the spread
`{...doc, similarityScore: cosineSimilarity(query, doc.embedding)}`. -/
noncomputable def scoreOf (query : List ℝ) (doc : StoredRecord) : Except String ScoredDoc :=
  (cosineSimilarity query doc.embedding).map fun s =>
    { doc := doc, similarityScore := s }

/-- The scoring/ranking pipeline of `searchSimilarCompanies` (source lines
120-133) applied to an already-fetched candidate list: score every
candidate, keep those with `similarityScore >= threshold`, sort descending,
`slice(0, limit)`. -/
noncomputable def searchFrom (queryEmbedding : List ℝ) (limit : ℕ) (threshold : ℝ)
    (allEmbeddings : List StoredRecord) : Except String (List ScoredDoc) :=
  match mapExcept (scoreOf queryEmbedding) allEmbeddings with
  | Except.error e => Except.error e
  | Except.ok similarities =>
    Except.ok
      (((similarities.filter fun item =>
          decide (threshold ≤ item.similarityScore)).insertionSort scoreDesc).take limit)

/-- `searchSimilarCompanies(queryText, limit, threshold, excludeUserId)`
(source lines 107-138), taking the query's embedding (the external
`generateEmbedding` result) and the store contents as arguments. -/
noncomputable def searchSimilarCompanies (store : List StoredRecord)
    (queryEmbedding : List ℝ) (limit : ℕ) (threshold : ℝ)
    (excludeUserId : Option ℕ) : Except String (List ScoredDoc) :=
  searchFrom queryEmbedding limit threshold (searchCandidates store excludeUserId)

/-- The body of `getCompanyRecommendations` (source lines 155-179) applied to
the caller's fetched history and the fetched candidate set: empty history
yields `[]`; otherwise the candidates are scored against the averaged
profile vector, filtered at the fixed threshold `0.6`, sorted descending and
truncated. -/
noncomputable def recommendFrom (userEmbeddings otherEmbeddings : List StoredRecord)
    (limit : ℕ) : Except String (List ScoredDoc) :=
  if userEmbeddings.length = 0 then Except.ok []
  else
    match mapExcept
        (scoreOf (averageEmbeddings (userEmbeddings.map fun e => e.embedding)))
        otherEmbeddings with
    | Except.error e => Except.error e
    | Except.ok recommendations =>
      Except.ok
        (((recommendations.filter fun item =>
            decide ((0.6 : ℝ) ≤ item.similarityScore)).insertionSort scoreDesc).take limit)

/-- `getCompanyRecommendations(userId, limit)` (source lines 145-185) over
the store contents. -/
noncomputable def getCompanyRecommendations (store : List StoredRecord) (userId : ℕ)
    (limit : ℕ) : Except String (List ScoredDoc) :=
  recommendFrom (userRecords store userId) (otherCandidates store userId) limit

/-- The result list of an operation that may throw, or `[]` when it threw:
used to state properties of every returned element. -/
def okOrEmpty {α : Type} (e : Except String (List α)) : List α :=
  match e with
  | Except.ok l => l
  | Except.error _ => []

/-- Case-insensitive match of one literal pattern character. -/
def charMatchLit (pc c : Char) : Bool :=
  pc.toLower == c.toLower

/-- Match of one regex pattern character under `$options: 'i'`: the
metacharacter matches any character, a literal character matches
case-insensitively. -/
def charMatchRe (pc c : Char) : Bool :=
  pc == '.' || pc.toLower == c.toLower

/-- Does the pattern match a prefix of the text, character by character
under the supplied single-character matcher? -/
def matchAt (m : Char → Char → Bool) : List Char → List Char → Bool
  | [], _ => true
  | _ :: _, [] => false
  | p :: ps, c :: cs => m p c && matchAt m ps cs

/-- Does the pattern match at some position of the text (an unanchored
match)? -/
def matchSome (m : Char → Char → Bool) (pat : List Char) : List Char → Bool
  | [] => matchAt m pat []
  | c :: cs => matchAt m pat (c :: cs) || matchSome m pat cs

/-- Mongo's `{$regex: companyName, $options: 'i'}` test as
`searchByCompanyName` issues it (source lines 297-299): the raw pattern
string is interpreted as an unanchored case-insensitive regular
expression. -/
def mongoRegexMatch (pattern text : String) : Bool :=
  matchSome charMatchRe pattern.data text.data

/-- The optional `query.userId` restriction of `searchByCompanyName`
(source lines 301-303). -/
def scopeMatches (userId : Option ℕ) (r : StoredRecord) : Bool :=
  match userId with
  | some uid => decide (r.userId = uid)
  | none => true

/-- `searchByCompanyName(companyName, userId)` (source lines 295-316):
regex-filter the store, sort by creation time descending, drop the vector
payload (`.select('-embedding')`). -/
def searchByCompanyName (store : List StoredRecord) (companyName : String)
    (userId : Option ℕ) : List PublicRecord :=
  ((store.filter fun r =>
      mongoRegexMatch companyName r.companyName && scopeMatches userId r).insertionSort
    recentFirst).map stripVector

/-- The specification's reading of the name search: the pattern occurs in the
company name as a case-insensitive substring.  Stated from the spec's words
(`case-insensitive substring match`) for comparison with the source's
regex-based `mongoRegexMatch`. -/
def specContainsCI (pattern text : String) : Prop :=
  ∃ pre post,
    text.data.map Char.toLower = pre ++ pattern.data.map Char.toLower ++ post

/-! ### Helper lemmas: `mapExcept` -/

theorem mapExcept_ok_mem {α β ε : Type} {f : α → Except ε β} :
    ∀ {l : List α} {l' : List β}, mapExcept f l = Except.ok l' →
      ∀ y ∈ l', ∃ x ∈ l, f x = Except.ok y := by
  intro l
  induction l with
  | nil =>
    intro l' h y hy
    simp [mapExcept] at h
    subst h
    exact absurd hy (List.not_mem_nil y)
  | cons x xs ih =>
    intro l' h y hy
    rw [mapExcept] at h
    cases hfx : f x with
    | error e => rw [hfx] at h; exact absurd h (by simp)
    | ok z =>
      rw [hfx] at h
      cases hrest : mapExcept f xs with
      | error e => rw [hrest] at h; exact absurd h (by simp)
      | ok zs =>
        rw [hrest] at h
        have hl : l' = z :: zs := by
          simpa using h.symm
        subst hl
        rcases List.mem_cons.mp hy with hyz | hyzs
        · exact ⟨x, List.mem_cons_self x xs, hyz ▸ hfx⟩
        · obtain ⟨w, hw, hfw⟩ := ih hrest y hyzs
          exact ⟨w, List.mem_cons_of_mem x hw, hfw⟩

theorem mapExcept_ok_forall {α β ε : Type} {f : α → Except ε β} :
    ∀ {l : List α} {l' : List β}, mapExcept f l = Except.ok l' →
      ∀ x ∈ l, ∃ y, f x = Except.ok y := by
  intro l
  induction l with
  | nil => intro l' _ x hx; exact absurd hx (List.not_mem_nil x)
  | cons a as ih =>
    intro l' h x hx
    rw [mapExcept] at h
    cases hfa : f a with
    | error e => rw [hfa] at h; exact absurd h (by simp)
    | ok z =>
      rw [hfa] at h
      cases hrest : mapExcept f as with
      | error e => rw [hrest] at h; exact absurd h (by simp)
      | ok zs =>
        rcases List.mem_cons.mp hx with hxa | hxas
        · exact ⟨z, hxa ▸ hfa⟩
        · exact ih hrest x hxas

theorem mapExcept_ok_of_forall {α β ε : Type} {f : α → Except ε β} :
    ∀ {l : List α}, (∀ x ∈ l, ∃ y, f x = Except.ok y) →
      ∃ l', mapExcept f l = Except.ok l' := by
  intro l
  induction l with
  | nil => intro _; exact ⟨[], rfl⟩
  | cons a as ih =>
    intro h
    obtain ⟨y, hy⟩ := h a (List.mem_cons_self a as)
    obtain ⟨l', hl'⟩ := ih fun x hx => h x (List.mem_cons_of_mem a hx)
    refine ⟨y :: l', ?_⟩
    rw [mapExcept, hy, hl']

theorem mapExcept_error_of_mem {α β ε : Type} {f : α → Except ε β} {l : List α} {x : α}
    (hx : x ∈ l) (hfx : ∀ y, f x ≠ Except.ok y) :
    ∃ e, mapExcept f l = Except.error e := by
  cases h : mapExcept f l with
  | error e => exact ⟨e, rfl⟩
  | ok l' =>
    obtain ⟨y, hy⟩ := mapExcept_ok_forall h x hx
    exact absurd hy (hfx y)

/-! ### Helper lemmas: the filter/sort/truncate pipeline -/

theorem ranked_sorted {α : Type} (p : α → Bool) (r : α → α → Prop) [DecidableRel r]
    [IsTotal α r] [IsTrans α r] (l : List α) (n : ℕ) :
    List.Sorted r (((l.filter p).insertionSort r).take n) :=
  (List.sorted_insertionSort r (l.filter p)).sublist (List.take_sublist n _)

theorem ranked_length_le {α : Type} (p : α → Bool) (r : α → α → Prop) [DecidableRel r]
    (l : List α) (n : ℕ) :
    (((l.filter p).insertionSort r).take n).length ≤ n := by
  rw [List.length_take]
  exact min_le_left _ _

theorem ranked_mem {α : Type} {p : α → Bool} {r : α → α → Prop} [DecidableRel r]
    {l : List α} {n : ℕ} {x : α}
    (hx : x ∈ ((l.filter p).insertionSort r).take n) : x ∈ l ∧ p x = true := by
  have h1 : x ∈ (l.filter p).insertionSort r := List.mem_of_mem_take hx
  have h2 : x ∈ l.filter p := (List.perm_insertionSort r (l.filter p)).mem_iff.mp h1
  exact List.mem_filter.mp h2

theorem ranked_complete {α : Type} {p : α → Bool} (r : α → α → Prop) [DecidableRel r]
    [IsTotal α r] [IsTrans α r] {l : List α} (n : ℕ) {c : α}
    (hc : c ∈ l) (hpc : p c = true) :
    c ∈ ((l.filter p).insertionSort r).take n ∨
      ((((l.filter p).insertionSort r).take n).length = n ∧
        ∀ x ∈ ((l.filter p).insertionSort r).take n, r x c) := by
  have hcs : c ∈ (l.filter p).insertionSort r :=
    (List.perm_insertionSort r (l.filter p)).mem_iff.mpr (List.mem_filter.mpr ⟨hc, hpc⟩)
  rw [← List.take_append_drop n ((l.filter p).insertionSort r)] at hcs
  rcases List.mem_append.mp hcs with htake | hdrop
  · exact Or.inl htake
  · right
    have hn : n < ((l.filter p).insertionSort r).length := by
      by_contra hle
      push_neg at hle
      rw [List.drop_eq_nil_of_le hle] at hdrop
      exact absurd hdrop (List.not_mem_nil c)
    constructor
    · rw [List.length_take]
      omega
    · intro x hx
      exact (List.sorted_insertionSort r (l.filter p)).rel_of_mem_take_of_mem_drop hx hdrop

/-! ### Helper lemmas: `cosineSimilarity` -/

theorem sumSq_nonneg (v : List ℝ) : 0 ≤ (v.map fun x => x * x).sum := by
  apply List.sum_nonneg
  intro y hy
  obtain ⟨x, _, hx⟩ := List.mem_map.mp hy
  exact hx ▸ mul_self_nonneg x

theorem norm2_nonneg (v : List ℝ) : 0 ≤ norm2 v :=
  Real.sqrt_nonneg _

theorem sumSq_eq (a : List ℝ) :
    (a.map fun x => x * x).sum = ∑ i ∈ Finset.range a.length, (a.getD i 0) ^ 2 := by
  induction a with
  | nil => simp
  | cons x xs ih =>
    simp only [List.map_cons, List.sum_cons, List.length_cons]
    rw [Finset.sum_range_succ']
    simp only [List.getD_cons_succ, List.getD_cons_zero]
    rw [ih]
    ring

theorem dotZip_eq : ∀ (a b : List ℝ), a.length = b.length →
    ((a.zip b).map fun p => p.1 * p.2).sum =
      ∑ i ∈ Finset.range a.length, a.getD i 0 * b.getD i 0 := by
  intro a
  induction a with
  | nil => intro b _; simp
  | cons x xs ih =>
    intro b hb
    cases b with
    | nil => simp at hb
    | cons y ys =>
      have h' : xs.length = ys.length := by simpa using hb
      simp only [List.zip_cons_cons, List.map_cons, List.sum_cons, List.length_cons]
      rw [Finset.sum_range_succ']
      simp only [List.getD_cons_succ, List.getD_cons_zero]
      rw [ih ys h']
      ring

theorem abs_dot_le (a b : List ℝ) (h : a.length = b.length) :
    |((a.zip b).map fun p => p.1 * p.2).sum| ≤ norm2 a * norm2 b := by
  rw [dotZip_eq a b h]
  set f : ℕ → ℝ := fun i => a.getD i 0
  set g : ℕ → ℝ := fun i => b.getD i 0
  have hcs := Finset.sum_mul_sq_le_sq_mul_sq (Finset.range a.length) f g
  have habs : |∑ i ∈ Finset.range a.length, f i * g i| =
      Real.sqrt ((∑ i ∈ Finset.range a.length, f i * g i) ^ 2) :=
    (Real.sqrt_sq_eq_abs _).symm
  rw [habs]
  have hA : (a.map fun x => x * x).sum = ∑ i ∈ Finset.range a.length, f i ^ 2 := sumSq_eq a
  have hB : (b.map fun x => x * x).sum = ∑ i ∈ Finset.range a.length, g i ^ 2 := by
    rw [sumSq_eq b, h]
  have hgoal : Real.sqrt ((∑ i ∈ Finset.range a.length, f i * g i) ^ 2) ≤
      Real.sqrt ((∑ i ∈ Finset.range a.length, f i ^ 2) *
        ∑ i ∈ Finset.range a.length, g i ^ 2) :=
    Real.sqrt_le_sqrt hcs
  refine le_trans hgoal (le_of_eq ?_)
  rw [Real.sqrt_mul (Finset.sum_nonneg fun i _ => sq_nonneg (f i))]
  unfold norm2
  rw [hA, hB]

theorem cos_ok_of_len {a b : List ℝ} (h : a.length = b.length) :
    ∃ s, cosineSimilarity a b = Except.ok s := by
  rw [cosineSimilarity]
  rw [if_neg (by simpa using h)]
  by_cases hz : norm2 a = 0 ∨ norm2 b = 0
  · exact ⟨0, by rw [if_pos hz]⟩
  · exact ⟨_, by rw [if_neg hz]⟩

theorem cos_error_of_len {a b : List ℝ} (h : a.length ≠ b.length) :
    cosineSimilarity a b = Except.error "Vectors must have the same length" := by
  rw [cosineSimilarity, if_pos h]

theorem cos_ok_len {a b : List ℝ} {s : ℝ} (h : cosineSimilarity a b = Except.ok s) :
    a.length = b.length := by
  by_contra hne
  rw [cos_error_of_len hne] at h
  exact absurd h (by simp)

theorem cos_zero_of_norm {a b : List ℝ} (h : a.length = b.length)
    (hz : norm2 a = 0 ∨ norm2 b = 0) :
    cosineSimilarity a b = Except.ok 0 := by
  rw [cosineSimilarity, if_neg (by simpa using h), if_pos hz]

theorem cos_bounds {a b : List ℝ} {s : ℝ} (h : cosineSimilarity a b = Except.ok s) :
    -1 ≤ s ∧ s ≤ 1 := by
  have hlen : a.length = b.length := cos_ok_len h
  rw [cosineSimilarity, if_neg (by simpa using hlen)] at h
  by_cases hz : norm2 a = 0 ∨ norm2 b = 0
  · rw [if_pos hz] at h
    have hs : s = 0 := by simpa using h.symm
    rw [hs]
    norm_num
  · rw [if_neg hz] at h
    push_neg at hz
    have hA : 0 < norm2 a := lt_of_le_of_ne (norm2_nonneg a) (Ne.symm hz.1)
    have hB : 0 < norm2 b := lt_of_le_of_ne (norm2_nonneg b) (Ne.symm hz.2)
    have hnm : 0 < norm2 a * norm2 b := mul_pos hA hB
    have hs : s = ((a.zip b).map fun p => p.1 * p.2).sum / (norm2 a * norm2 b) := by
      simpa using h.symm
    have habs : |s| ≤ 1 := by
      rw [hs, abs_div, abs_of_pos hnm]
      exact (div_le_one hnm).mpr (abs_dot_le a b hlen)
    exact abs_le.mp habs

/-! ### Helper lemmas: `averageEmbeddings` -/

theorem map_getD_range (v : List ℝ) :
    (List.range v.length).map (fun i => v.getD i 0) = v := by
  apply List.ext_getElem
  · simp
  · intro i h1 h2
    simp only [List.getElem_map, List.getElem_range]
    rw [List.getD_eq_getElem v 0 h2]

theorem averageEmbeddings_replicate (v : List ℝ) (k : ℕ) (hk : 1 ≤ k) :
    averageEmbeddings (List.replicate k v) = v := by
  obtain ⟨m, rfl⟩ : ∃ m, k = m + 1 := ⟨k - 1, by omega⟩
  rw [List.replicate_succ, averageEmbeddings]
  have hrep : v :: List.replicate m v = List.replicate (m + 1) v :=
    (List.replicate_succ v m).symm
  rw [hrep]
  have hstep : ∀ i : ℕ,
      ((List.replicate (m + 1) v).map fun e => e.getD i 0).sum /
        ((List.replicate (m + 1) v).length : ℝ) = v.getD i 0 := by
    intro i
    rw [List.map_replicate, List.sum_replicate, List.length_replicate]
    rw [nsmul_eq_mul]
    have hm : ((m : ℝ) + 1) ≠ 0 := by positivity
    push_cast
    field_simp
  calc ((List.range v.length).map fun i =>
        ((List.replicate (m + 1) v).map fun e => e.getD i 0).sum /
          ((List.replicate (m + 1) v).length : ℝ))
      = (List.range v.length).map fun i => v.getD i 0 := by
        exact List.map_congr_left fun i _ => hstep i
    _ = v := map_getD_range v

/-! ### Concrete evaluation helpers -/

theorem norm2_single_one : norm2 [(1 : ℝ)] = 1 := by
  rw [norm2]
  norm_num

theorem norm2_pair_zero : norm2 [(0 : ℝ), 0] = 0 := by
  rw [norm2]
  norm_num

theorem cos_one_one : cosineSimilarity [(1 : ℝ)] [(1 : ℝ)] = Except.ok 1 := by
  rw [cosineSimilarity]
  rw [if_neg (by simp)]
  rw [if_neg (by rw [norm2_single_one]; norm_num)]
  rw [norm2_single_one]
  norm_num

/-! ### Helper lemmas: name matching -/

theorem matchAt_congr (m1 m2 : Char → Char → Bool) :
    ∀ (pat txt : List Char), (∀ p ∈ pat, ∀ c, m1 p c = m2 p c) →
      matchAt m1 pat txt = matchAt m2 pat txt := by
  intro pat
  induction pat with
  | nil => intro txt _; rfl
  | cons p ps ih =>
    intro txt hm
    cases txt with
    | nil => rfl
    | cons c cs =>
      rw [matchAt, matchAt, hm p (List.mem_cons_self p ps) c,
        ih cs fun q hq d => hm q (List.mem_cons_of_mem p hq) d]

theorem matchSome_congr (m1 m2 : Char → Char → Bool) (pat : List Char)
    (hm : ∀ p ∈ pat, ∀ c, m1 p c = m2 p c) :
    ∀ txt : List Char, matchSome m1 pat txt = matchSome m2 pat txt := by
  intro txt
  induction txt with
  | nil => rw [matchSome, matchSome, matchAt_congr m1 m2 pat [] hm]
  | cons c cs ih =>
    rw [matchSome, matchSome, matchAt_congr m1 m2 pat (c :: cs) hm, ih]

theorem charMatchRe_eq_lit {p : Char} (hp : p ≠ '.') (c : Char) :
    charMatchRe p c = charMatchLit p c := by
  rw [charMatchRe, charMatchLit]
  have : (p == '.') = false := by simpa using hp
  rw [this, Bool.false_or]

theorem matchAt_lit_iff : ∀ (pat txt : List Char),
    matchAt charMatchLit pat txt = true ↔
      ∃ rest, txt.map Char.toLower = pat.map Char.toLower ++ rest := by
  intro pat
  induction pat with
  | nil =>
    intro txt
    simp [matchAt]
  | cons p ps ih =>
    intro txt
    cases txt with
    | nil =>
      constructor
      · intro h; exact absurd h (by rw [matchAt]; simp)
      · rintro ⟨rest, hr⟩; simp at hr
    | cons c cs =>
      rw [matchAt]
      constructor
      · intro h
        rw [Bool.and_eq_true] at h
        obtain ⟨h1, h2⟩ := h
        obtain ⟨rest, hr⟩ := (ih cs).mp h2
        refine ⟨rest, ?_⟩
        simp only [List.map_cons, List.cons_append, hr]
        have hpc : p.toLower = c.toLower := by
          rw [charMatchLit] at h1
          exact (beq_iff_eq.mp h1)
        rw [hpc]
      · rintro ⟨rest, hr⟩
        simp only [List.map_cons, List.cons_append, List.cons.injEq] at hr
        rw [Bool.and_eq_true]
        constructor
        · rw [charMatchLit]
          exact beq_iff_eq.mpr hr.1.symm
        · exact (ih cs).mpr ⟨rest, hr.2⟩

theorem matchSome_lit_iff (pat : List Char) :
    ∀ txt : List Char, matchSome charMatchLit pat txt = true ↔
      ∃ pre post, txt.map Char.toLower = pre ++ pat.map Char.toLower ++ post := by
  intro txt
  induction txt with
  | nil =>
    rw [matchSome]
    constructor
    · intro h
      obtain ⟨rest, hr⟩ := (matchAt_lit_iff pat []).mp h
      simp only [List.map_nil] at hr
      refine ⟨[], [], ?_⟩
      have h2 := List.append_eq_nil.mp hr.symm
      simp [h2.1]
    · rintro ⟨pre, post, h⟩
      simp only [List.map_nil] at h
      have h2 := List.append_eq_nil.mp h.symm
      have h3 := List.append_eq_nil.mp h2.1
      apply (matchAt_lit_iff pat []).mpr
      exact ⟨[], by simp [h3.2]⟩
  | cons c cs ih =>
    rw [matchSome, Bool.or_eq_true]
    constructor
    · rintro (h | h)
      · obtain ⟨rest, hr⟩ := (matchAt_lit_iff pat (c :: cs)).mp h
        exact ⟨[], rest, by simpa using hr⟩
      · obtain ⟨pre, post, hr⟩ := ih.mp h
        refine ⟨c.toLower :: pre, post, ?_⟩
        simp [hr]
    · rintro ⟨pre, post, h⟩
      cases pre with
      | nil =>
        left
        apply (matchAt_lit_iff pat (c :: cs)).mpr
        exact ⟨post, by simpa using h⟩
      | cons q qs =>
        right
        simp only [List.map_cons, List.cons_append, List.cons.injEq] at h
        exact ih.mpr ⟨qs, post, h.2⟩

theorem mongoRegexMatch_lit_iff (pattern text : String)
    (hp : '.' ∉ pattern.data) :
    mongoRegexMatch pattern text = true ↔ specContainsCI pattern text := by
  rw [mongoRegexMatch,
    matchSome_congr charMatchRe charMatchLit pattern.data
      (fun p hpm c => charMatchRe_eq_lit (by rintro rfl; exact hp hpm) c) text.data]
  rw [matchSome_lit_iff]
  rfl

theorem scoreOf_ok_doc {q : List ℝ} {doc : StoredRecord} {r : ScoredDoc}
    (h : scoreOf q doc = Except.ok r) :
    r.doc = doc ∧ cosineSimilarity q doc.embedding = Except.ok r.similarityScore := by
  rw [scoreOf] at h
  cases hc : cosineSimilarity q doc.embedding with
  | error e =>
    rw [hc] at h
    exact absurd h (by simp [Except.map])
  | ok s =>
    rw [hc] at h
    have hr : ({ doc := doc, similarityScore := s } : ScoredDoc) = r := by
      simpa [Except.map] using h
    constructor
    · rw [← hr]
    · rw [← hr]

/-! ### Concrete records used by counterexamples and witnesses -/

/-- A store with one record owned by user `7`, embedding `[1]`. -/
def demoRec : StoredRecord :=
  { id := 1, companyName := "Acme", researchData := "research",
    embedding := [1], userId := 7,
    metadata := { industry := some "software", website := none, tags := [] },
    createdAt := 0 }

/-- A record whose company name is `abc`, used against the pattern `a.c`. -/
def demoNameRec : StoredRecord :=
  { id := 2, companyName := "abc", researchData := "research",
    embedding := [], userId := 7,
    metadata := { industry := none, website := none, tags := [] },
    createdAt := 0 }

theorem searchFrom_ok {q : List ℝ} {limit : ℕ} {t : ℝ} {cands : List StoredRecord}
    {scored : List ScoredDoc} (h : mapExcept (scoreOf q) cands = Except.ok scored) :
    searchFrom q limit t cands =
      Except.ok (((scored.filter fun item =>
        decide (t ≤ item.similarityScore)).insertionSort scoreDesc).take limit) := by
  rw [searchFrom, h]

theorem searchFrom_error {q : List ℝ} {limit : ℕ} {t : ℝ} {cands : List StoredRecord}
    {e : String} (h : mapExcept (scoreOf q) cands = Except.error e) :
    searchFrom q limit t cands = Except.error e := by
  rw [searchFrom, h]

theorem recommendFrom_ok {us os : List StoredRecord} {limit : ℕ}
    {scored : List ScoredDoc} (hus : us.length ≠ 0)
    (h : mapExcept (scoreOf (averageEmbeddings (us.map fun e => e.embedding))) os =
      Except.ok scored) :
    recommendFrom us os limit =
      Except.ok (((scored.filter fun item =>
        decide ((0.6 : ℝ) ≤ item.similarityScore)).insertionSort scoreDesc).take limit) := by
  rw [recommendFrom, if_neg hus, h]

theorem recommendFrom_error {us os : List StoredRecord} {limit : ℕ}
    {e : String} (hus : us.length ≠ 0)
    (h : mapExcept (scoreOf (averageEmbeddings (us.map fun e => e.embedding))) os =
      Except.error e) :
    recommendFrom us os limit = Except.error e := by
  rw [recommendFrom, if_neg hus, h]

theorem eval_search_demo :
    searchSimilarCompanies [demoRec] [(1 : ℝ)] 5 0 none =
      Except.ok [{ doc := demoRec, similarityScore := 1 }] := by
  have hscore : scoreOf [(1 : ℝ)] demoRec =
      Except.ok { doc := demoRec, similarityScore := 1 } := by
    rw [scoreOf]
    have he : demoRec.embedding = [(1 : ℝ)] := rfl
    rw [he, cos_one_one]
    rfl
  have hcand : searchCandidates [demoRec] none = [demoRec] := by
    rw [searchCandidates]
    simp
  have hmap : mapExcept (scoreOf [(1 : ℝ)]) [demoRec] =
      Except.ok [{ doc := demoRec, similarityScore := 1 }] := by
    rw [mapExcept, hscore]
    rfl
  rw [searchSimilarCompanies, hcand, searchFrom_ok hmap]
  have hfil : ([({ doc := demoRec, similarityScore := 1 } : ScoredDoc)].filter fun item =>
      decide ((0 : ℝ) ≤ item.similarityScore)) =
      [{ doc := demoRec, similarityScore := 1 }] := by
    have hd : (decide ((0 : ℝ) ≤
        ({ doc := demoRec, similarityScore := 1 } : ScoredDoc).similarityScore)) = true :=
      decide_eq_true zero_le_one
    simp [List.filter, hd]
  rw [hfil]
  have hsort : ([({ doc := demoRec, similarityScore := 1 } : ScoredDoc)].insertionSort
      scoreDesc) = [{ doc := demoRec, similarityScore := 1 }] := by
    simp [List.insertionSort, List.orderedInsert]
  rw [hsort]
  simp

/-! ### Claim theorems -/

/-- C4: `cosineSimilarity(a, b)` raises the dimension-mismatch error if and
only if the lengths of `a` and `b` differ; for every pair of equal-length
vectors it returns a score without raising. -/
theorem cosineSimilarity_dimension_mismatch_iff :
    ∀ a b : List ℝ,
      ((∃ e, cosineSimilarity a b = Except.error e) ↔ a.length ≠ b.length) ∧
      (a.length = b.length → ∃ s, cosineSimilarity a b = Except.ok s) := by
  intro a b
  constructor
  · constructor
    · rintro ⟨e, he⟩ hlen
      obtain ⟨s, hs⟩ := cos_ok_of_len hlen
      rw [hs] at he
      exact absurd he (by simp)
    · intro hne
      exact ⟨_, cos_error_of_len hne⟩
  · intro hlen
    exact cos_ok_of_len hlen

/-- C5: for every vector `v` and every equal-length vector `z` whose norm is
exactly zero, `cosineSimilarity(v, z)` and `cosineSimilarity(z, v)` both
return `0` and no exception is raised. -/
theorem cosineSimilarity_zero_norm_gives_zero :
    ∀ v z : List ℝ, v.length = z.length → norm2 z = 0 →
      cosineSimilarity v z = Except.ok 0 ∧ cosineSimilarity z v = Except.ok 0 := by
  intro v z hlen hz
  exact ⟨cos_zero_of_norm hlen (Or.inr hz), cos_zero_of_norm hlen.symm (Or.inl hz)⟩

/-- Witness for C5 at `v = [1, 2]`, `z = [0, 0]`. -/
theorem cosineSimilarity_zero_norm_gives_zero_checked :
    cosineSimilarity [(1 : ℝ), 2] [(0 : ℝ), 0] = Except.ok 0 ∧
      cosineSimilarity [(0 : ℝ), 0] [(1 : ℝ), 2] = Except.ok 0 :=
  cosineSimilarity_zero_norm_gives_zero [1, 2] [0, 0] rfl norm2_pair_zero

/-- C6: every score `cosineSimilarity` returns lies in the closed interval
`[-1, 1]`. -/
theorem cosineSimilarity_score_bounded :
    ∀ (a b : List ℝ) (s : ℝ),
      cosineSimilarity a b = Except.ok s → -1 ≤ s ∧ s ≤ 1 :=
  fun _ _ _ h => cos_bounds h

/-- Witness for C6 at `a = b = [1]`, whose score is `1`. -/
theorem cosineSimilarity_score_bounded_checked : -1 ≤ (1 : ℝ) ∧ (1 : ℝ) ≤ 1 :=
  cosineSimilarity_score_bounded [1] [1] 1 cos_one_one

/-- C8: for every vector `v` and every `k ≥ 1`, `averageEmbeddings` applied
to `k` copies of `v` returns `v` itself. -/
theorem averageEmbeddings_of_replicates :
    ∀ (v : List ℝ) (k : ℕ), 1 ≤ k →
      averageEmbeddings (List.replicate k v) = v :=
  fun v k hk => averageEmbeddings_replicate v k hk

/-- Witness for C8 at three copies of `[1, 2]`. -/
theorem averageEmbeddings_of_replicates_checked :
    averageEmbeddings (List.replicate 3 [(1 : ℝ), 2]) = [(1 : ℝ), 2] :=
  averageEmbeddings_of_replicates [1, 2] 3 (by norm_num)

theorem okOrEmpty_ok {α : Type} (l : List α) : okOrEmpty (Except.ok l) = l := rfl

theorem okOrEmpty_error {α : Type} (e : String) :
    okOrEmpty (Except.error e : Except String (List α)) = [] := rfl

/-- C3: for every caller `ownerId` and every limit, no record returned by
`getCompanyRecommendations(ownerId, limit)` has `userId` equal to
`ownerId`. -/
theorem recommendations_exclude_caller_records :
    ∀ (ownerId limit : ℕ) (store : List StoredRecord),
      List.Forall (fun r => r.doc.userId ≠ ownerId)
        (okOrEmpty (getCompanyRecommendations store ownerId limit)) := by
  intro uid limit store
  rw [List.forall_iff_forall_mem]
  intro r hr
  rw [getCompanyRecommendations] at hr
  by_cases hk : (userRecords store uid).length = 0
  · rw [recommendFrom, if_pos hk, okOrEmpty_ok] at hr
    exact absurd hr (List.not_mem_nil r)
  · cases hmap : mapExcept
        (scoreOf (averageEmbeddings ((userRecords store uid).map fun e => e.embedding)))
        (otherCandidates store uid) with
    | error e =>
      rw [recommendFrom_error hk hmap, okOrEmpty_error] at hr
      exact absurd hr (List.not_mem_nil r)
    | ok scored =>
      rw [recommendFrom_ok hk hmap, okOrEmpty_ok] at hr
      obtain ⟨hmem, _⟩ := ranked_mem hr
      obtain ⟨doc, hdoc, hsc⟩ := mapExcept_ok_mem hmap r hmem
      obtain ⟨hdoceq, _⟩ := scoreOf_ok_doc hsc
      have hfil : doc ∈ store.filter fun r => decide (r.userId ≠ uid) :=
        List.mem_of_mem_take hdoc
      have hne : decide (doc.userId ≠ uid) = true := (List.mem_filter.mp hfil).2
      rw [hdoceq]
      exact of_decide_eq_true hne

/-- C2 counterexample: a search over a one-record store returns a result
carrying the stored raw embedding vector verbatim, so a returned result does
expose the stored vector field. -/
theorem search_result_exposes_stored_vector :
    ∃ res, searchSimilarCompanies [demoRec] [(1 : ℝ)] 5 0 none = Except.ok res ∧
      ∃ r ∈ res, r.doc.embedding = demoRec.embedding ∧ r.doc.embedding ≠ [] := by
  refine ⟨[{ doc := demoRec, similarityScore := 1 }], eval_search_demo,
    { doc := demoRec, similarityScore := 1 }, List.mem_singleton_self _, rfl, ?_⟩
  rw [show ({ doc := demoRec, similarityScore := 1 } : ScoredDoc).doc.embedding =
    [(1 : ℝ)] from rfl]
  simp

/-- C2 amended: every element of the ranked list returned by
`searchSimilarCompanies` is a stored candidate record kept whole — raw
embedding vector included, metadata intact — paired with its similarity
score. -/
theorem search_results_carry_full_record :
    ∀ (store : List StoredRecord) (q : List ℝ) (n : ℕ) (t : ℝ) (ex : Option ℕ),
      List.Forall (fun r => r.doc ∈ searchCandidates store ex ∧
          cosineSimilarity q r.doc.embedding = Except.ok r.similarityScore)
        (okOrEmpty (searchSimilarCompanies store q n t ex)) := by
  intro store q n t ex
  rw [List.forall_iff_forall_mem]
  intro r hr
  rw [searchSimilarCompanies] at hr
  cases hmap : mapExcept (scoreOf q) (searchCandidates store ex) with
  | error e =>
    rw [searchFrom_error hmap, okOrEmpty_error] at hr
    exact absurd hr (List.not_mem_nil r)
  | ok scored =>
    rw [searchFrom_ok hmap, okOrEmpty_ok] at hr
    obtain ⟨hmem, _⟩ := ranked_mem hr
    obtain ⟨doc, hdoc, hsc⟩ := mapExcept_ok_mem hmap r hmem
    obtain ⟨hdoceq, hcos⟩ := scoreOf_ok_doc hsc
    rw [hdoceq]
    exact ⟨hdoc, hcos⟩

/-- C7: the scored batch is atomic: a dimension mismatch anywhere in the
scanned candidate set makes the whole operation raise, an all-matching
candidate set yields a full ranked list, and no bad candidate is silently
skipped. -/
theorem scored_batch_atomicity :
    ∀ (store : List StoredRecord) (q : List ℝ) (n : ℕ) (t : ℝ) (ex : Option ℕ)
      (uid m : ℕ),
      ((∃ doc ∈ searchCandidates store ex, doc.embedding.length ≠ q.length) →
        ∃ e, searchSimilarCompanies store q n t ex = Except.error e) ∧
      ((∀ doc ∈ searchCandidates store ex, doc.embedding.length = q.length) →
        ∃ res, searchSimilarCompanies store q n t ex = Except.ok res) ∧
      (userRecords store uid ≠ [] →
        (∃ doc ∈ otherCandidates store uid,
          doc.embedding.length ≠
            (averageEmbeddings ((userRecords store uid).map fun e => e.embedding)).length) →
        ∃ e, getCompanyRecommendations store uid m = Except.error e) := by
  intro store q n t ex uid m
  refine ⟨?_, ?_, ?_⟩
  · rintro ⟨doc, hdoc, hne⟩
    have herr : cosineSimilarity q doc.embedding =
        Except.error "Vectors must have the same length" :=
      cos_error_of_len fun h => hne h.symm
    have hbad : ∀ y, scoreOf q doc ≠ Except.ok y := by
      intro y hy
      rw [scoreOf, herr] at hy
      exact absurd hy (by simp [Except.map])
    obtain ⟨e, he⟩ := mapExcept_error_of_mem hdoc hbad
    exact ⟨e, by rw [searchSimilarCompanies]; exact searchFrom_error he⟩
  · intro hall
    have hok : ∀ doc ∈ searchCandidates store ex, ∃ y, scoreOf q doc = Except.ok y := by
      intro doc hdoc
      obtain ⟨s, hs⟩ := cos_ok_of_len (hall doc hdoc).symm
      exact ⟨{ doc := doc, similarityScore := s }, by rw [scoreOf, hs]; rfl⟩
    obtain ⟨scored, hsc⟩ := mapExcept_ok_of_forall hok
    exact ⟨_, by rw [searchSimilarCompanies]; exact searchFrom_ok hsc⟩
  · intro hne hbaddoc
    obtain ⟨doc, hdoc, hlen⟩ := hbaddoc
    have hus : (userRecords store uid).length ≠ 0 := by
      intro h
      exact hne (List.eq_nil_of_length_eq_zero h)
    have herr : cosineSimilarity
        (averageEmbeddings ((userRecords store uid).map fun e => e.embedding))
        doc.embedding = Except.error "Vectors must have the same length" :=
      cos_error_of_len fun h => hlen h.symm
    have hbad : ∀ y,
        scoreOf (averageEmbeddings ((userRecords store uid).map fun e => e.embedding)) doc ≠
          Except.ok y := by
      intro y hy
      rw [scoreOf, herr] at hy
      exact absurd hy (by simp [Except.map])
    obtain ⟨e, he⟩ := mapExcept_error_of_mem hdoc hbad
    exact ⟨e, by rw [getCompanyRecommendations]; exact recommendFrom_error hus he⟩

/-- C1: every successful `searchSimilarCompanies` call returns exactly the
scored candidates whose similarity score meets the threshold, in descending
score order, truncated to the first `limit`; `getCompanyRecommendations`
obeys the same full filter/sort/truncate contract with its fixed threshold
`0.6`: descending order, every score at least `0.6`, and — whenever the
caller's history is non-empty, the only case in which the code scores a
batch — its results are exactly drawn from the scored candidate batch,
complete up to the limit. -/
theorem search_threshold_sort_truncate_exact :
    ∀ (store : List StoredRecord) (q : List ℝ) (n : ℕ) (t : ℝ) (ex : Option ℕ)
      (uid : ℕ),
      (∀ res, searchSimilarCompanies store q n t ex = Except.ok res →
        List.Sorted scoreDesc res ∧
        res.length ≤ n ∧
        (∀ r ∈ res, t ≤ r.similarityScore) ∧
        (∀ scored, mapExcept (scoreOf q) (searchCandidates store ex) = Except.ok scored →
          (∀ r ∈ res, r ∈ scored) ∧
          (∀ c ∈ scored, t ≤ c.similarityScore →
            c ∈ res ∨ (res.length = n ∧
              ∀ r ∈ res, c.similarityScore ≤ r.similarityScore)))) ∧
      (∀ res, getCompanyRecommendations store uid n = Except.ok res →
        List.Sorted scoreDesc res ∧
        res.length ≤ n ∧
        (∀ r ∈ res, (0.6 : ℝ) ≤ r.similarityScore) ∧
        (userRecords store uid ≠ [] →
          ∀ scored, mapExcept
              (scoreOf (averageEmbeddings ((userRecords store uid).map fun e => e.embedding)))
              (otherCandidates store uid) = Except.ok scored →
            (∀ r ∈ res, r ∈ scored) ∧
            (∀ c ∈ scored, (0.6 : ℝ) ≤ c.similarityScore →
              c ∈ res ∨ (res.length = n ∧
                ∀ r ∈ res, c.similarityScore ≤ r.similarityScore)))) := by
  intro store q n t ex uid
  constructor
  · intro res hres
    rw [searchSimilarCompanies] at hres
    cases hmap : mapExcept (scoreOf q) (searchCandidates store ex) with
    | error e =>
      rw [searchFrom_error hmap] at hres
      exact absurd hres (by simp)
    | ok scored =>
      rw [searchFrom_ok hmap] at hres
      obtain rfl := Except.ok.inj hres
      refine ⟨ranked_sorted _ scoreDesc scored n, ranked_length_le _ scoreDesc scored n,
        ?_, ?_⟩
      · intro r hr
        exact of_decide_eq_true (ranked_mem hr).2
      · intro scored' hmap'
        obtain rfl := Except.ok.inj hmap'
        constructor
        · intro r hr
          exact (ranked_mem hr).1
        · intro c hc hct
          exact ranked_complete scoreDesc n hc (decide_eq_true hct)
  · intro res hres
    rw [getCompanyRecommendations] at hres
    by_cases hk : (userRecords store uid).length = 0
    · rw [recommendFrom, if_pos hk] at hres
      obtain rfl := Except.ok.inj hres
      refine ⟨List.sorted_nil, Nat.zero_le n,
        fun r hr => absurd hr (List.not_mem_nil r), ?_⟩
      intro hne
      exact absurd (List.eq_nil_of_length_eq_zero hk) hne
    · cases hmap : mapExcept
          (scoreOf (averageEmbeddings ((userRecords store uid).map fun e => e.embedding)))
          (otherCandidates store uid) with
      | error e =>
        rw [recommendFrom_error hk hmap] at hres
        exact absurd hres (by simp)
      | ok scored =>
        rw [recommendFrom_ok hk hmap] at hres
        obtain rfl := Except.ok.inj hres
        refine ⟨ranked_sorted _ scoreDesc scored n, ranked_length_le _ scoreDesc scored n,
          ?_, ?_⟩
        · intro r hr
          exact of_decide_eq_true (ranked_mem hr).2
        · intro _ scored' hmap'
          obtain rfl := Except.ok.inj hmap'
          constructor
          · intro r hr
            exact (ranked_mem hr).1
          · intro c hc hct
            exact ranked_complete scoreDesc n hc (decide_eq_true hct)

/-- C9 counterexample: with the pattern `a.c` the search returns the record
named `abc`, although `a.c` is not a case-insensitive substring of `abc`:
the raw pattern reaches the store as a regular expression. -/
theorem searchByCompanyName_regex_not_substring_cex :
    searchByCompanyName [demoNameRec] "a.c" none = [stripVector demoNameRec] ∧
      ¬ specContainsCI "a.c" demoNameRec.companyName := by
  constructor
  · rfl
  · intro hspec
    obtain ⟨pre, post, h⟩ := hspec
    have hd : demoNameRec.companyName = "abc" := rfl
    rw [hd] at h
    have htext : ("abc".data.map Char.toLower) = ['a', 'b', 'c'] := by decide
    have hpat : ("a.c".data.map Char.toLower) = ['a', '.', 'c'] := by decide
    rw [htext, hpat] at h
    have hlen := congrArg List.length h
    simp only [List.length_append, List.length_cons, List.length_nil] at hlen
    have hpre : pre = [] := List.eq_nil_of_length_eq_zero (by omega)
    have hpost : post = [] := List.eq_nil_of_length_eq_zero (by omega)
    rw [hpre, hpost] at h
    simp only [List.nil_append, List.append_nil] at h
    exact absurd h (by decide)

/-- C9 amended: `searchByCompanyName(pattern, userId?)` returns exactly the
records (vector payload stripped) whose `companyName` matches the raw
pattern interpreted as a case-insensitive unanchored regular expression,
optionally restricted to the given user; for patterns free of regex
metacharacters this coincides with case-insensitive substring
containment. -/
theorem searchByCompanyName_regex_characterisation :
    ∀ (pattern : String) (uid : Option ℕ) (store : List StoredRecord),
      (∀ r', r' ∈ searchByCompanyName store pattern uid ↔
        ∃ r, r ∈ store ∧ mongoRegexMatch pattern r.companyName = true ∧
          scopeMatches uid r = true ∧ r' = stripVector r) ∧
      (∀ text : String, '.' ∉ pattern.data →
        (mongoRegexMatch pattern text = true ↔ specContainsCI pattern text)) := by
  intro pattern uid store
  constructor
  · intro r'
    rw [searchByCompanyName, List.mem_map]
    constructor
    · rintro ⟨x, hx, hxr⟩
      have hmemf : x ∈ store.filter fun r =>
          mongoRegexMatch pattern r.companyName && scopeMatches uid r :=
        (List.perm_insertionSort recentFirst _).mem_iff.mp hx
      obtain ⟨hxs, hcond⟩ := List.mem_filter.mp hmemf
      rw [Bool.and_eq_true] at hcond
      exact ⟨x, hxs, hcond.1, hcond.2, hxr.symm⟩
    · rintro ⟨r, hrs, hre, hsc, rfl⟩
      refine ⟨r, ?_, rfl⟩
      apply (List.perm_insertionSort recentFirst _).mem_iff.mpr
      apply List.mem_filter.mpr
      refine ⟨hrs, ?_⟩
      rw [Bool.and_eq_true]
      exact ⟨hre, hsc⟩
  · intro text hp
    exact mongoRegexMatch_lit_iff pattern text hp

/-- C10: `getCompanyRecommendations` scores at most the first 500 candidate
records from other users (against the 1000-record cap of
`searchSimilarCompanies`), and the ranked recommendations depend only on the
caller's records and that capped candidate window. -/
theorem recommendation_candidate_cap :
    ∀ (uid n : ℕ) (store store' : List StoredRecord) (ex : Option ℕ),
      (otherCandidates store uid).length ≤ 500 ∧
      (500 ≤ (store.filter fun r => decide (r.userId ≠ uid)).length →
        (otherCandidates store uid).length = 500) ∧
      (searchCandidates store ex).length ≤ 1000 ∧
      (1000 ≤ store.length → (searchCandidates store none).length = 1000) ∧
      ((store.filter fun r => decide (r.userId = uid)) =
          (store'.filter fun r => decide (r.userId = uid)) →
        otherCandidates store uid = otherCandidates store' uid →
        getCompanyRecommendations store uid n = getCompanyRecommendations store' uid n) := by
  intro uid n store store' ex
  refine ⟨?_, ?_, ?_, ?_, ?_⟩
  · rw [otherCandidates, List.length_take]
    exact min_le_left _ _
  · intro h
    rw [otherCandidates, List.length_take]
    omega
  · rw [searchCandidates.eq_def, List.length_take]
    exact min_le_left _ _
  · intro h
    have hnone : searchCandidates store none = store.take 1000 := rfl
    rw [hnone, List.length_take]
    omega
  · intro h1 h2
    rw [getCompanyRecommendations, getCompanyRecommendations, h2]
    have hu : userRecords store uid = userRecords store' uid := by
      rw [userRecords, userRecords, h1]
    rw [hu]
